import Mathlib

/-
  Verification of the DEST cascaded shape-regression core against its
  natural-language specification.

  Shallow embedding of:
    src/src/core/shape.cpp      (estimateSimilarityTransform,
                                 findClosestLandmarkIndex,
                                 shapeRelativePixelCoordinates)
    src/src/core/regressor.cpp  (Regressor::fit, Regressor::sampleCoordinates,
                                 Regressor::readPixelIntensities,
                                 Regressor::predict)

  Modelling conventions:
  - float arithmetic is modelled by an arbitrary LinearOrderedField
    (instantiated at the rationals for concrete evaluations);
  - a Shape is a 2 x L matrix of landmark coordinates, as in Eigen;
  - Eigen's jacobiSvd is an external collaborator: it is passed in as an
    oracle producing a factorization, and theorems assume the standard SVD
    properties (orthogonal factors, descending nonnegative singular values);
    for symmetric positive semidefinite inputs the two-sided Jacobi
    algorithm returns equal left and right factors, which is taken as a
    hypothesis where relevant;
  - the image intensity lookup, the random source and the regression-tree
    fitting routine (tree.cpp, not part of the analysed sources) are
    external collaborators passed in as parameters.
-/

set_option maxHeartbeats 1000000

namespace Dest

variable {α : Type} [LinearOrderedField α]

/-- A shape: a 2 x L matrix of landmark coordinates (row 0 holds x, row 1
holds y), matching Eigen's 2 x L layout in the source. -/
abbrev Shape (L : ℕ) (α : Type) := Matrix (Fin 2) (Fin L) α

/-- A shape residual has the same 2 x L layout as a shape. -/
abbrev ShapeResidual (L : ℕ) (α : Type) := Matrix (Fin 2) (Fin L) α

/-- Column `j` of a shape, as a coordinate pair (Eigen's s.col(j)). -/
def col {L : ℕ} (s : Shape L α) (j : Fin L) : α × α := (s 0 j, s 1 j)

/-- Column `j` of a shape, as a vector indexed by Fin 2. -/
def colv {L : ℕ} (s : Shape L α) (j : Fin L) : Fin 2 → α := fun r => s r j

/-- Squared Euclidean distance between two coordinate pairs,
(s.col(i) - x).squaredNorm() in the source. -/
def dist2 (p q : α × α) : α := (p.1 - q.1) ^ 2 + (p.2 - q.2) ^ 2

/-- Componentwise sum of coordinate pairs. -/
def add2 (p q : α × α) : α × α := (p.1 + q.1, p.2 + q.2)

/-- Componentwise difference of coordinate pairs. -/
def sub2 (p q : α × α) : α × α := (p.1 - q.1, p.2 - q.2)

/-- One iteration of the best-landmark scan of findClosestLandmarkIndex:
the running best (index, squared distance) is replaced exactly when the
new squared distance is strictly smaller (shape.cpp line 80). -/
def scanStep (i : ℕ) (v : α) : Option (ℕ × α) → Option (ℕ × α)
  | none => some (i, v)
  | some (b, bd) => if v < bd then some (i, v) else some (b, bd)

/-- The scan of findClosestLandmarkIndex after processing indices
0 .. m-1 in increasing order; `none` models the initial state
(bestLandmark = -1, bestD2 = FLT_MAX). -/
def scanAux (f : ℕ → α) : ℕ → Option (ℕ × α)
  | 0 => none
  | m + 1 => scanStep m (f m) (scanAux f m)

/-- Landmark column by untrusted natural index (junk value out of range;
the source indexes columns unchecked). -/
def colN {L : ℕ} (s : Shape L α) (i : ℕ) : α × α :=
  if h : i < L then col s ⟨i, h⟩ else (0, 0)

/-- Landmark column by untrusted integer index (junk value out of range;
the source indexes columns by a C++ int unchecked). -/
def colI {L : ℕ} (s : Shape L α) (k : ℤ) : α × α :=
  if h : 0 ≤ k ∧ k.toNat < L then col s ⟨k.toNat, h.2⟩ else (0, 0)

/-- findClosestLandmarkIndex (shape.cpp lines 71-87): linear scan over the
landmarks, keeping the first index attaining the smallest squared
distance; returns -1 when the shape has no landmarks. -/
def findClosestLandmarkIndex {L : ℕ} (s : Shape L α) (x : α × α) : ℤ :=
  match scanAux (fun i => dist2 (colN s i) x) L with
  | none => -1
  | some (b, _) => (b : ℤ)

/-- shapeRelativePixelCoordinates (shape.cpp lines 90-103): for each
absolute coordinate, record its offset relative to its closest landmark
and, in a parallel array, that landmark's index. -/
def shapeRelativePixelCoordinates {L : ℕ} (s : Shape L α)
    (abscoords : List (α × α)) : List (α × α) × List ℤ :=
  (abscoords.map fun a => sub2 a (colI s (findClosestLandmarkIndex s a)),
   abscoords.map fun a => findClosestLandmarkIndex s a)

/- ### Specification of the scan -/

theorem scanAux_spec (f : ℕ → α) (m : ℕ) (hm : 0 < m) :
    ∃ b, scanAux f m = some (b, f b) ∧ b < m ∧
      (∀ j, j < m → f b ≤ f j) ∧ (∀ j, j < b → f b < f j) := by
  induction m with
  | zero => exact absurd hm (lt_irrefl 0)
  | succ m ih =>
    rcases Nat.eq_zero_or_pos m with hm0 | hmpos
    · subst hm0
      refine ⟨0, ?_, Nat.zero_lt_one, ?_, ?_⟩
      · rfl
      · intro j hj
        interval_cases j
        exact le_refl _
      · intro j hj
        exact absurd hj (Nat.not_lt_zero j)
    · obtain ⟨b, hsb, hbm, hmin, hfirst⟩ := ih hmpos
      by_cases hlt : f m < f b
      · refine ⟨m, ?_, Nat.lt_succ_self m, ?_, ?_⟩
        · simp [scanAux, hsb, scanStep, hlt]
        · intro j hj
          rcases Nat.lt_succ_iff_lt_or_eq.mp hj with hj' | hj'
          · exact le_trans (le_of_lt hlt) (hmin j hj')
          · subst hj'; exact le_refl _
        · intro j hj
          exact lt_of_lt_of_le hlt (hmin j hj)
      · refine ⟨b, ?_, Nat.lt_succ_of_lt hbm, ?_, hfirst⟩
        · simp [scanAux, hsb, scanStep, hlt]
        · intro j hj
          rcases Nat.lt_succ_iff_lt_or_eq.mp hj with hj' | hj'
          · exact hmin j hj'
          · subst hj'; exact le_of_not_lt hlt

/- ### Claims C8 and C10 -/

/-- Claim C8: for every shape with L >= 1 landmarks and every query point,
findClosestLandmarkIndex returns an index in [0, L) whose squared
Euclidean distance to the query is minimal over all landmarks, and which
is the lowest index among all minimizers (first encountered in the
linear scan). -/
theorem findClosestLandmarkIndex_spec {L : ℕ} (s : Shape L α) (x : α × α)
    (hL : 0 < L) :
    ∃ i : Fin L, findClosestLandmarkIndex s x = (i : ℤ) ∧
      (∀ j : Fin L, dist2 (col s i) x ≤ dist2 (col s j) x) ∧
      (∀ j : Fin L, (j : ℕ) < (i : ℕ) → dist2 (col s i) x < dist2 (col s j) x) := by
  obtain ⟨b, hsb, hbm, hmin, hfirst⟩ :=
    scanAux_spec (fun i => dist2 (colN s i) x) L hL
  have hcolb : colN s b = col s ⟨b, hbm⟩ := by simp [colN, hbm]
  refine ⟨⟨b, hbm⟩, ?_, ?_, ?_⟩
  · unfold findClosestLandmarkIndex
    rw [hsb]
  · intro j
    have := hmin (j : ℕ) j.isLt
    simpa [colN, hbm, j.isLt] using this
  · intro j hj
    have := hfirst (j : ℕ) hj
    simpa [colN, hbm, j.isLt] using this

/-- Witness for C8: a concrete two-landmark shape with a distance tie; the
scan returns an index satisfying the specification. -/
def shapeTie : Shape 2 ℚ := Matrix.of !![1, 0; 0, 1]

theorem findClosestLandmarkIndex_spec_witness :
    (0 < 2) ∧
    ∃ i : Fin 2, findClosestLandmarkIndex shapeTie ((0 : ℚ), (0 : ℚ)) = (i : ℤ) ∧
      (∀ j : Fin 2, dist2 (col shapeTie i) ((0 : ℚ), (0 : ℚ)) ≤
        dist2 (col shapeTie j) ((0 : ℚ), (0 : ℚ))) ∧
      (∀ j : Fin 2, (j : ℕ) < (i : ℕ) → dist2 (col shapeTie i) ((0 : ℚ), (0 : ℚ)) <
        dist2 (col shapeTie j) ((0 : ℚ), (0 : ℚ))) :=
  ⟨by decide, findClosestLandmarkIndex_spec shapeTie ((0 : ℚ), (0 : ℚ)) (by decide)⟩

/-- Claim C10: for every shape with at least one landmark,
shapeRelativePixelCoordinates produces relative-coordinate and
anchor-index arrays of the input's length, and at every position the
relative coordinate plus the landmark at the recorded anchor index
reconstructs the original absolute coordinate exactly. -/
theorem shapeRelativePixelCoordinates_reconstruct {L : ℕ} (s : Shape L α)
    (abscoords : List (α × α)) (hL : 0 < L) :
    (shapeRelativePixelCoordinates s abscoords).1.length = abscoords.length ∧
    (shapeRelativePixelCoordinates s abscoords).2.length = abscoords.length ∧
    ∀ i a, abscoords.get? i = some a →
      ∃ (j : Fin L) (r : α × α),
        (shapeRelativePixelCoordinates s abscoords).2.get? i = some ((j : ℕ) : ℤ) ∧
        (shapeRelativePixelCoordinates s abscoords).1.get? i = some r ∧
        add2 r (col s j) = a := by
  refine ⟨List.length_map _ _, List.length_map _ _, ?_⟩
  intro i a ha
  obtain ⟨j, hj, _, _⟩ := findClosestLandmarkIndex_spec s a hL
  have hcolI : colI s (findClosestLandmarkIndex s a) = col s j := by
    rw [hj]
    simp [colI, j.isLt]
  refine ⟨j, sub2 a (col s j), ?_, ?_, ?_⟩
  · unfold shapeRelativePixelCoordinates
    rw [List.get?_map, ha, Option.map_some', hj]
  · unfold shapeRelativePixelCoordinates
    rw [List.get?_map, ha, Option.map_some', hcolI]
  · cases a with
    | mk ax ay =>
      simp [add2, sub2]

/-- Witness for C10: a concrete shape and absolute coordinate list; each
relative coordinate plus its anchor landmark gives back the absolute
coordinate. -/
theorem shapeRelativePixelCoordinates_reconstruct_witness :
    (shapeRelativePixelCoordinates shapeTie [((3 : ℚ), (4 : ℚ))]).1.length = 1 ∧
    (shapeRelativePixelCoordinates shapeTie [((3 : ℚ), (4 : ℚ))]).2.length = 1 ∧
    ∀ i a, [((3 : ℚ), (4 : ℚ))].get? i = some a →
      ∃ (j : Fin 2) (r : ℚ × ℚ),
        (shapeRelativePixelCoordinates shapeTie [((3 : ℚ), (4 : ℚ))]).2.get? i = some ((j : ℕ) : ℤ) ∧
        (shapeRelativePixelCoordinates shapeTie [((3 : ℚ), (4 : ℚ))]).1.get? i = some r ∧
        add2 r (col shapeTie j) = a :=
  shapeRelativePixelCoordinates_reconstruct shapeTie [((3 : ℚ), (4 : ℚ))] (by decide)

/- ### Similarity transform estimation (shape.cpp lines 27-69) -/

/-- The output of Eigen's jacobiSvd on a 2 x 2 matrix: left factor U,
right factor V and the two singular values (Eigen returns them sorted in
decreasing order). The SVD itself is an external collaborator (Eigen). -/
structure SVD2 (α : Type) where
  U : Matrix (Fin 2) (Fin 2) α
  V : Matrix (Fin 2) (Fin 2) α
  s0 : α
  s1 : α

/-- The diagonal 2 x 2 matrix with the given diagonal entries. -/
def diag2 (a b : α) : Matrix (Fin 2) (Fin 2) α := !![a, 0; 0, b]

/-- The validity properties of a singular value decomposition M = U D Vᵀ
with orthogonal factors and descending nonnegative singular values, as
guaranteed by Eigen's jacobiSvd. -/
def IsSVDOf (M : Matrix (Fin 2) (Fin 2) α) (sv : SVD2 α) : Prop :=
  sv.U.transpose * sv.U = 1 ∧ sv.V.transpose * sv.V = 1 ∧
  sv.U * diag2 sv.s0 sv.s1 * sv.V.transpose = M ∧ sv.s1 ≤ sv.s0 ∧ 0 ≤ sv.s1

/-- Rowwise mean of a shape (the centroid), from.rowwise().mean(). -/
def meanOf {L : ℕ} (s : Shape L α) (r : Fin 2) : α := (∑ j, s r j) / (L : α)

/-- The centroid-centered shape, from.colwise() - meanFrom. -/
def centered {L : ℕ} (s : Shape L α) : Shape L α :=
  fun r j => s r j - meanOf s r

/-- The 2 x 2 cross-covariance of the centered shapes divided by the
landmark count, cov = centeredFrom * centeredTo.transpose() / L. -/
def covOf {L : ℕ} (fromS toS : Shape L α) : Matrix (Fin 2) (Fin 2) α :=
  ((L : α))⁻¹ • (centered fromS * (centered toS).transpose)

/-- The source shape's variance, centeredFrom.squaredNorm() / L. -/
def sFromOf {L : ℕ} (fromS : Shape L α) : α :=
  (∑ r, ∑ j, (centered fromS r j) ^ 2) / (L : α)

/-- The reflection-correction matrix s (shape.cpp lines 47-54): identity,
except that when the covariance determinant is negative (or zero with
det(U)det(V) negative) the diagonal entry of the smaller singular value
is flipped to -1. -/
def corrOf (cov : Matrix (Fin 2) (Fin 2) α) (sv : SVD2 α) :
    Matrix (Fin 2) (Fin 2) α :=
  if cov.det < 0 ∨ (cov.det = 0 ∧ sv.U.det * sv.V.det < 0) then
    (if sv.s1 < sv.s0 then diag2 1 (-1) else diag2 (-1) 1)
  else 1

/-- The fitted rotation, rot = U.transpose() * s * V (shape.cpp line 56). -/
def rotOf (cov : Matrix (Fin 2) (Fin 2) α) (sv : SVD2 α) :
    Matrix (Fin 2) (Fin 2) α :=
  sv.U.transpose * corrOf cov sv * sv.V

/-- The uniform scale c (shape.cpp lines 57-60): 1 when the source
variance is not positive, else trace(d * s) / sFrom. -/
def scaleOf {L : ℕ} (fromS : Shape L α) (cov : Matrix (Fin 2) (Fin 2) α)
    (sv : SVD2 α) : α :=
  if 0 < sFromOf fromS then
    (1 / sFromOf fromS) * (diag2 sv.s0 sv.s1 * corrOf cov sv).trace
  else 1

/-- Division that records a zero divisor instead of producing a junk
value; used to state that the guarded scale computation never divides by
zero. -/
def safeDiv (a b : α) : Option α := if b = 0 then none else some (a / b)

/-- The scale computation with its division tracked by safeDiv: the
branch structure is exactly that of scaleOf. -/
def scaleOfChecked {L : ℕ} (fromS : Shape L α)
    (cov : Matrix (Fin 2) (Fin 2) α) (sv : SVD2 α) : Option α :=
  if 0 < sFromOf fromS then
    safeDiv ((diag2 sv.s0 sv.s1 * corrOf cov sv).trace) (sFromOf fromS)
  else some 1

/-- A similarity transform as stored in Eigen::AffineCompact2f: linear
part A (= c * rot) and translation t. -/
structure SimilarityTransform (α : Type) where
  A : Matrix (Fin 2) (Fin 2) α
  t : Fin 2 → α

/-- estimateSimilarityTransform (shape.cpp lines 27-69), with Eigen's SVD
supplied by the oracle svdOf. -/
def estimateSimilarityTransform {L : ℕ}
    (svdOf : Matrix (Fin 2) (Fin 2) α → SVD2 α)
    (fromS toS : Shape L α) : SimilarityTransform α :=
  let cov := covOf fromS toS
  let sv := svdOf cov
  let rot := rotOf cov sv
  let c := scaleOf fromS cov sv
  { A := c • rot
    t := fun r => meanOf toS r - c * rot.mulVec (meanOf fromS) r }

/- ### Helper lemmas for the SVD-based claims -/

theorem det_sq_of_orthogonal {U : Matrix (Fin 2) (Fin 2) α}
    (h : U.transpose * U = 1) : U.det * U.det = 1 := by
  have h1 : (U.transpose * U).det = (1 : Matrix (Fin 2) (Fin 2) α).det := by rw [h]
  rwa [Matrix.det_mul, Matrix.det_transpose, Matrix.det_one] at h1

theorem det_diag2 (a b : α) : (diag2 a b).det = a * b := by
  simp [diag2, Matrix.det_fin_two_of]

theorem trace_diag2 (a b : α) : (diag2 a b).trace = a + b := by
  simp [diag2, Matrix.trace_fin_two_of]

theorem det_cov_eq {M : Matrix (Fin 2) (Fin 2) α} {sv : SVD2 α}
    (h : IsSVDOf M sv) : M.det = sv.U.det * sv.V.det * (sv.s0 * sv.s1) := by
  obtain ⟨-, -, hM, -, -⟩ := h
  rw [← hM, Matrix.det_mul, Matrix.det_mul, Matrix.det_transpose, det_diag2]
  ring

theorem det_corrOf (cov : Matrix (Fin 2) (Fin 2) α) (sv : SVD2 α) :
    (corrOf cov sv).det =
      (if cov.det < 0 ∨ (cov.det = 0 ∧ sv.U.det * sv.V.det < 0) then -1 else 1) := by
  unfold corrOf
  by_cases h : cov.det < 0 ∨ (cov.det = 0 ∧ sv.U.det * sv.V.det < 0)
  · rw [if_pos h, if_pos h]
    by_cases h2 : sv.s1 < sv.s0
    · rw [if_pos h2, det_diag2]; ring
    · rw [if_neg h2, det_diag2]; ring
  · rw [if_neg h, if_neg h, Matrix.det_one]

/-- The determinant of the corrected rotation is +1 for every input and
every valid SVD: the correction matrix flips the sign exactly when
det(U)det(V) = -1. -/
theorem det_rotOf_eq_one {M : Matrix (Fin 2) (Fin 2) α} {sv : SVD2 α}
    (h : IsSVDOf M sv) : (rotOf M sv).det = 1 := by
  obtain ⟨hU, hV, hM, hs01, hs1⟩ := h
  have hu : sv.U.det * sv.U.det = 1 := det_sq_of_orthogonal hU
  have hv : sv.V.det * sv.V.det = 1 := det_sq_of_orthogonal hV
  have huvsq : (sv.U.det * sv.V.det) * (sv.U.det * sv.V.det) = 1 := by
    have hre : (sv.U.det * sv.V.det) * (sv.U.det * sv.V.det)
        = (sv.U.det * sv.U.det) * (sv.V.det * sv.V.det) := by ring
    rw [hre, hu, hv, one_mul]
  have huvcases : sv.U.det * sv.V.det = 1 ∨ sv.U.det * sv.V.det = -1 :=
    mul_self_eq_one_iff.mp huvsq
  have hdM : M.det = sv.U.det * sv.V.det * (sv.s0 * sv.s1) :=
    det_cov_eq ⟨hU, hV, hM, hs01, hs1⟩
  have hs0s1 : 0 ≤ sv.s0 * sv.s1 :=
    mul_nonneg (le_trans hs1 hs01) hs1
  have hrot : (rotOf M sv).det = sv.U.det * (corrOf M sv).det * sv.V.det := by
    unfold rotOf
    rw [Matrix.det_mul, Matrix.det_mul, Matrix.det_transpose]
  rw [hrot, det_corrOf]
  by_cases hc : M.det < 0 ∨ (M.det = 0 ∧ sv.U.det * sv.V.det < 0)
  · rw [if_pos hc]
    have huvneg : sv.U.det * sv.V.det < 0 := by
      rcases hc with hneg | ⟨-, huvneg⟩
      · rw [hdM] at hneg
        by_contra hnonneg
        exact absurd (mul_nonneg (le_of_not_lt hnonneg) hs0s1) (not_le_of_lt hneg)
      · exact huvneg
    have huv : sv.U.det * sv.V.det = -1 := by
      rcases huvcases with h1 | h1
      · rw [h1] at huvneg
        exact absurd huvneg (by norm_num)
      · exact h1
    nlinarith [huv]
  · rw [if_neg hc]
    push_neg at hc
    obtain ⟨hge, himp⟩ := hc
    have huv : sv.U.det * sv.V.det = 1 := by
      rcases huvcases with h1 | h1
      · exact h1
      · exfalso
        rcases lt_or_eq_of_le hge with hpos | hzero
        · rw [hdM, h1] at hpos
          nlinarith [hs0s1]
        · have := himp hzero.symm
          rw [h1] at this
          exact absurd this (by norm_num)
    nlinarith [huv]

theorem sFromOf_nonneg {L : ℕ} (fromS : Shape L α) : 0 ≤ sFromOf fromS := by
  unfold sFromOf
  apply div_nonneg
  · apply Finset.sum_nonneg
    intro r _
    apply Finset.sum_nonneg
    intro j _
    positivity
  · exact Nat.cast_nonneg L

theorem trace_cov_self {L : ℕ} (fromS : Shape L α) :
    (covOf fromS fromS).trace = sFromOf fromS := by
  unfold covOf sFromOf
  rw [Matrix.trace_smul]
  have htr : (centered fromS * (centered fromS).transpose).trace
      = ∑ r, ∑ j, (centered fromS r j) ^ 2 := by
    simp [Matrix.trace, Matrix.mul_apply, Matrix.transpose_apply, sq]
  rw [htr, smul_eq_mul, div_eq_mul_inv, mul_comm]

theorem trace_cov_svd {M : Matrix (Fin 2) (Fin 2) α} {sv : SVD2 α}
    (h : IsSVDOf M sv) (hUV : sv.V = sv.U) :
    M.trace = sv.s0 + sv.s1 := by
  obtain ⟨hU, -, hM, -, -⟩ := h
  rw [← hM, hUV, Matrix.trace_mul_comm, ← Matrix.mul_assoc, hU, Matrix.one_mul,
    trace_diag2]

/-- Claim C5: for every non-degenerate shape S (non-zero variance, at
least one landmark), estimateSimilarityTransform(S, S) is the identity
transform: linear part the 2 x 2 identity and translation zero. The SVD
is any valid factorization of the (symmetric positive semidefinite)
self-covariance with equal factors, as Eigen's two-sided Jacobi returns
for symmetric PSD input. -/
theorem estimateSimilarityTransform_self_identity {L : ℕ}
    (svdOf : Matrix (Fin 2) (Fin 2) α → SVD2 α) (fromS : Shape L α)
    (hL : 0 < L)
    (hsvd : IsSVDOf (covOf fromS fromS) (svdOf (covOf fromS fromS)))
    (hUV : (svdOf (covOf fromS fromS)).V = (svdOf (covOf fromS fromS)).U)
    (hvar : sFromOf fromS ≠ 0) :
    (estimateSimilarityTransform svdOf fromS fromS).A = 1 ∧
    ∀ r : Fin 2, (estimateSimilarityTransform svdOf fromS fromS).t r = 0 := by
  have hpos : 0 < sFromOf fromS :=
    lt_of_le_of_ne (sFromOf_nonneg fromS) (Ne.symm hvar)
  obtain ⟨hU, hV, hM, hs01, hs1⟩ := hsvd
  set cov := covOf fromS fromS with hcov
  set sv := svdOf cov with hsv
  have hu : sv.U.det * sv.U.det = 1 := det_sq_of_orthogonal hU
  have huv1 : sv.U.det * sv.V.det = 1 := by
    rw [hUV]; exact hu
  have hdet : cov.det = sv.s0 * sv.s1 := by
    have hthis : cov.det = sv.U.det * sv.V.det * (sv.s0 * sv.s1) :=
      det_cov_eq ⟨hU, hV, hM, hs01, hs1⟩
    rw [hthis, hUV, hu, one_mul]
  have hdet0 : 0 ≤ cov.det := by
    rw [hdet]
    exact mul_nonneg (le_trans hs1 hs01) hs1
  have hnocorr : ¬(cov.det < 0 ∨ (cov.det = 0 ∧ sv.U.det * sv.V.det < 0)) := by
    push_neg
    refine ⟨hdet0, fun _ => ?_⟩
    rw [huv1]
    exact zero_le_one
  have hcorr : corrOf cov sv = 1 := by
    unfold corrOf
    rw [if_neg hnocorr]
  have hrot : rotOf cov sv = 1 := by
    unfold rotOf
    rw [hcorr, Matrix.mul_one, hUV, hU]
  have htrace : sv.s0 + sv.s1 = sFromOf fromS := by
    rw [← trace_cov_svd ⟨hU, hV, hM, hs01, hs1⟩ hUV]
    exact trace_cov_self fromS
  have hscale : scaleOf fromS cov sv = 1 := by
    unfold scaleOf
    rw [if_pos hpos, hcorr, Matrix.mul_one, trace_diag2, htrace,
      one_div, inv_mul_cancel₀ hvar]
  constructor
  · show scaleOf fromS cov sv • rotOf cov sv = 1
    rw [hscale, hrot, one_smul]
  · intro r
    show meanOf fromS r - scaleOf fromS cov sv *
      (rotOf cov sv).mulVec (meanOf fromS) r = 0
    rw [hscale, hrot, Matrix.one_mulVec, one_mul, sub_self]

/-- Witness shape for C5: two distinct landmarks on the x axis. -/
def shapeVar : Shape 2 ℚ := !![0, 2; 0, 0]

/-- Witness SVD oracle for C5: the self-covariance of shapeVar is
diag(1, 0), whose SVD has U = V = I. -/
def svdOracleC5 : Matrix (Fin 2) (Fin 2) ℚ → SVD2 ℚ := fun _ => ⟨1, 1, 1, 0⟩

theorem covOf_shapeVar : covOf shapeVar shapeVar = !![1, 0; 0, 0] := by
  ext i j
  fin_cases i <;> fin_cases j <;>
    simp [covOf, centered, meanOf, shapeVar, Matrix.mul_apply, Fin.sum_univ_two] <;>
    norm_num

theorem sFromOf_shapeVar : sFromOf shapeVar = 1 := by
  simp [sFromOf, centered, meanOf, shapeVar, Fin.sum_univ_two]
  norm_num

theorem estimateSimilarityTransform_self_identity_witness :
    (estimateSimilarityTransform svdOracleC5 shapeVar shapeVar).A = 1 ∧
    ∀ r : Fin 2, (estimateSimilarityTransform svdOracleC5 shapeVar shapeVar).t r = 0 :=
  estimateSimilarityTransform_self_identity svdOracleC5 shapeVar (by norm_num)
    (by
      refine ⟨?_, ?_, ?_, ?_, ?_⟩
      · simp [svdOracleC5]
      · simp [svdOracleC5]
      · rw [covOf_shapeVar]
        simp [svdOracleC5, diag2]
      · norm_num [svdOracleC5]
      · norm_num [svdOracleC5])
    (by rfl)
    (by rw [sFromOf_shapeVar]; norm_num)

theorem centered_eq_zero_of_coincide {L : ℕ} (fromS : Shape L α)
    (p : Fin 2 → α) (hzero : ∀ r j, fromS r j = p r) :
    centered fromS = 0 := by
  rcases Nat.eq_zero_or_pos L with hL0 | hLpos
  · subst hL0
    funext r j
    exact absurd j.isLt (Nat.not_lt_zero _)
  · funext r j
    have hLne : ((L : α)) ≠ 0 := by
      exact_mod_cast Nat.pos_iff_ne_zero.mp hLpos
    have hm : meanOf fromS r = p r := by
      unfold meanOf
      have hsum : (∑ j', fromS r j') = (L : α) * p r := by
        simp [hzero r, Finset.sum_const, Finset.card_univ, mul_comm]
      rw [hsum, mul_comm, mul_div_assoc, div_self hLne, mul_one]
    simp [centered, hzero r, hm]

/-- Claim C7: for a source shape with zero variance (all landmarks
coincide) the similarity estimation yields scale 1 and identity rotation
(with Eigen's symmetric-input SVD of the zero covariance, U = V), and
the division by the source variance is guarded, hence never executed on
a zero divisor for any input pair. -/
theorem zero_variance_scale_one_rot_identity {L : ℕ}
    (svdOf : Matrix (Fin 2) (Fin 2) α → SVD2 α) (fromS toS : Shape L α)
    (p : Fin 2 → α) (hzero : ∀ r j, fromS r j = p r)
    (hsvd : IsSVDOf (covOf fromS toS) (svdOf (covOf fromS toS)))
    (hUV : (svdOf (covOf fromS toS)).V = (svdOf (covOf fromS toS)).U) :
    scaleOf fromS (covOf fromS toS) (svdOf (covOf fromS toS)) = 1 ∧
    rotOf (covOf fromS toS) (svdOf (covOf fromS toS)) = 1 ∧
    (estimateSimilarityTransform svdOf fromS toS).A =
      rotOf (covOf fromS toS) (svdOf (covOf fromS toS)) ∧
    scaleOfChecked fromS (covOf fromS toS) (svdOf (covOf fromS toS)) = some 1 ∧
    ∀ (L' : ℕ) (f' t' : Shape L' α) (sv' : SVD2 α),
      (scaleOfChecked f' (covOf f' t') sv').isSome := by
  obtain ⟨hU, hV, hM, hs01, hs1⟩ := hsvd
  set cov := covOf fromS toS with hcov
  set sv := svdOf cov with hsv
  have hcent : centered fromS = 0 := centered_eq_zero_of_coincide fromS p hzero
  have hcov0 : cov = 0 := by
    rw [hcov]
    unfold covOf
    rw [hcent, Matrix.zero_mul, smul_zero]
  have hvar0 : sFromOf fromS = 0 := by
    unfold sFromOf
    rw [hcent]
    simp
  have hnotpos : ¬(0 < sFromOf fromS) := by
    rw [hvar0]
    exact lt_irrefl 0
  have hu : sv.U.det * sv.U.det = 1 := det_sq_of_orthogonal hU
  have huv1 : sv.U.det * sv.V.det = 1 := by rw [hUV]; exact hu
  have hnocorr : ¬(cov.det < 0 ∨ (cov.det = 0 ∧ sv.U.det * sv.V.det < 0)) := by
    push_neg
    rw [hcov0]
    refine ⟨le_of_eq (Matrix.det_zero ⟨(0 : Fin 2)⟩).symm, fun _ => ?_⟩
    rw [huv1]
    exact zero_le_one
  have hcorr : corrOf cov sv = 1 := by
    unfold corrOf
    rw [if_neg hnocorr]
  have hscale : scaleOf fromS cov sv = 1 := by
    unfold scaleOf
    rw [if_neg hnotpos]
  have hrot : rotOf cov sv = 1 := by
    unfold rotOf
    rw [hcorr, Matrix.mul_one, hUV, hU]
  refine ⟨hscale, hrot, ?_, ?_, ?_⟩
  · show scaleOf fromS cov sv • rotOf cov sv = rotOf cov sv
    rw [hscale, one_smul]
  · unfold scaleOfChecked
    rw [if_neg hnotpos]
  · intro L' f' t' sv'
    unfold scaleOfChecked safeDiv
    by_cases hpos : 0 < sFromOf f'
    · rw [if_pos hpos, if_neg (ne_of_gt hpos)]
      rfl
    · rw [if_neg hpos]
      rfl

/-- Witness shape for C7: two coincident landmarks. -/
def shapeFlat : Shape 2 ℚ := !![3, 3; 4, 4]

/-- Witness SVD oracle for C7: the SVD of the zero covariance, with
U = V = I and both singular values zero. -/
def svdOracleZero : Matrix (Fin 2) (Fin 2) ℚ → SVD2 ℚ := fun _ => ⟨1, 1, 0, 0⟩

theorem zero_variance_scale_one_rot_identity_witness :
    scaleOf shapeFlat (covOf shapeFlat shapeTie) (svdOracleZero (covOf shapeFlat shapeTie)) = 1 ∧
    rotOf (covOf shapeFlat shapeTie) (svdOracleZero (covOf shapeFlat shapeTie)) = 1 ∧
    (estimateSimilarityTransform svdOracleZero shapeFlat shapeTie).A =
      rotOf (covOf shapeFlat shapeTie) (svdOracleZero (covOf shapeFlat shapeTie)) ∧
    scaleOfChecked shapeFlat (covOf shapeFlat shapeTie) (svdOracleZero (covOf shapeFlat shapeTie)) = some 1 ∧
    ∀ (L' : ℕ) (f' t' : Shape L' ℚ) (sv' : SVD2 ℚ),
      (scaleOfChecked f' (covOf f' t') sv').isSome :=
  zero_variance_scale_one_rot_identity svdOracleZero shapeFlat shapeTie
    (fun r => if r = 0 then 3 else 4)
    (by
      intro r j
      fin_cases r <;> fin_cases j <;> simp [shapeFlat])
    (by
      have hc : covOf shapeFlat shapeTie = 0 := by
        unfold covOf
        rw [centered_eq_zero_of_coincide shapeFlat (fun r => if r = 0 then 3 else 4)
          (by intro r j; fin_cases r <;> fin_cases j <;> simp [shapeFlat]),
          Matrix.zero_mul, smul_zero]
      refine ⟨?_, ?_, ?_, ?_, ?_⟩
      · simp [svdOracleZero]
      · simp [svdOracleZero]
      · rw [hc]
        simp only [svdOracleZero, Matrix.one_mul]
        ext i j
        fin_cases i <;> fin_cases j <;> simp [diag2]
      · norm_num [svdOracleZero]
      · norm_num [svdOracleZero])
    (by rfl)

/-- Claim C6: when shape B is a mirror image of shape A (an orthogonal
map of determinant -1 plus a translation applied to every landmark), the
rotation recovered by estimateSimilarityTransform is a proper rotation
of determinant +1, and when the covariance determinant is negative the
correction matrix flips the sign of the smaller singular value. -/
theorem mirror_rotation_is_proper {L : ℕ}
    (svdOf : Matrix (Fin 2) (Fin 2) α → SVD2 α) (A B : Shape L α)
    (M : Matrix (Fin 2) (Fin 2) α) (w : Fin 2 → α)
    (hMorth : M.transpose * M = 1) (hMdet : M.det = -1)
    (hmirror : ∀ j : Fin L, colv B j = M.mulVec (colv A j) + w)
    (hsvd : IsSVDOf (covOf A B) (svdOf (covOf A B))) :
    (rotOf (covOf A B) (svdOf (covOf A B))).det = 1 ∧
    ((covOf A B).det < 0 → (svdOf (covOf A B)).s1 < (svdOf (covOf A B)).s0 →
      corrOf (covOf A B) (svdOf (covOf A B)) = diag2 1 (-1)) := by
  constructor
  · exact det_rotOf_eq_one hsvd
  · intro hneg hlt
    unfold corrOf
    rw [if_pos (Or.inl hneg), if_pos hlt]

/-- Witness shapes for C6: three landmarks and their mirror image across
the y axis. -/
def shapeA6 : Shape 3 ℚ := !![1, -1, 0; 0, 0, 1]

def shapeB6 : Shape 3 ℚ := !![-1, 1, 0; 0, 0, 1]

/-- Witness SVD oracle for C6: an exact rational SVD of the covariance of
(shapeA6, shapeB6), which is diag(-2/3, 2/9). -/
def svdOracleC6 : Matrix (Fin 2) (Fin 2) ℚ → SVD2 ℚ :=
  fun _ => ⟨!![-1, 0; 0, 1], 1, 2/3, 2/9⟩

theorem covOf_shapeA6_shapeB6 : covOf shapeA6 shapeB6 = !![-2/3, 0; 0, 2/9] := by
  ext i j
  fin_cases i <;> fin_cases j <;>
    simp [covOf, centered, meanOf, shapeA6, shapeB6, Matrix.mul_apply,
      Fin.sum_univ_three] <;>
    norm_num

theorem mirror_rotation_is_proper_witness :
    (rotOf (covOf shapeA6 shapeB6) (svdOracleC6 (covOf shapeA6 shapeB6))).det = 1 ∧
    ((covOf shapeA6 shapeB6).det < 0 →
      (svdOracleC6 (covOf shapeA6 shapeB6)).s1 < (svdOracleC6 (covOf shapeA6 shapeB6)).s0 →
      corrOf (covOf shapeA6 shapeB6) (svdOracleC6 (covOf shapeA6 shapeB6)) = diag2 1 (-1)) :=
  mirror_rotation_is_proper svdOracleC6 shapeA6 shapeB6 !![-1, 0; 0, 1] 0
    (by
      ext i j
      fin_cases i <;> fin_cases j <;>
        simp [Matrix.mul_apply, Matrix.transpose_apply, Matrix.vecHead,
          Matrix.vecTail, Fin.sum_univ_two])
    (by simp [Matrix.det_fin_two_of])
    (by
      intro j
      funext r
      fin_cases j <;> fin_cases r <;>
        simp [colv, shapeA6, shapeB6, Matrix.mulVec, Matrix.dotProduct,
          Fin.sum_univ_two])
    (by
      rw [covOf_shapeA6_shapeB6]
      refine ⟨?_, ?_, ?_, ?_, ?_⟩
      · ext i j
        fin_cases i <;> fin_cases j <;>
          simp [svdOracleC6, Matrix.mul_apply, Matrix.transpose_apply,
            Matrix.vecHead, Matrix.vecTail, Fin.sum_univ_two]
      · simp [svdOracleC6]
      · ext i j
        fin_cases i <;> fin_cases j <;>
          simp [svdOracleC6, diag2, Matrix.mul_apply, Matrix.transpose_apply,
            Matrix.vecHead, Matrix.vecTail, Fin.sum_univ_two] <;>
          norm_num
      · norm_num [svdOracleC6]
      · norm_num [svdOracleC6])

/- ### Regressor (regressor.cpp) -/

/-- Pixel intensities: one scalar per pixel coordinate. -/
abbrev PixelIntensities (α : Type) := List α

/-- An image is the external intensity-lookup collaborator: a scalar
intensity for each 2D coordinate. -/
abbrev Image (α : Type) := α × α → α

/-- A trained regression tree, viewed through its prediction function.
The tree internals (tree.cpp) are not among the analysed sources; only
Tree::predict's input/output behaviour is relevant to the claims. -/
abbrev Tree (L : ℕ) (α : Type) := PixelIntensities α → ShapeResidual L α

/-- The training hyperparameters consumed by Regressor::fit. -/
structure TrainingParameters (α : Type) where
  learningRate : α
  numTrees : ℕ
  numRandomPixelCoordinates : ℕ

/-- The shared training data: parameters, ground-truth shapes, images,
and the outcomes of the per-stage random source (the uniform draws
consumed by sampleCoordinates, each componentwise in
[0, max - min] of the bounding box). -/
structure TrainingData (L : ℕ) (α : Type) where
  params : TrainingParameters α
  shapes : List (Shape L α)
  images : List (Image α)
  draws : List (α × α)

/-- One training sample: index of its source image/ground truth, and the
current shape estimate. -/
structure TrainingSample (L : ℕ) (α : Type) where
  idx : ℕ
  estimate : Shape L α

/-- The input of Regressor::fit; `n` is the number of samples. -/
structure RegressorTraining (L n : ℕ) (α : Type) where
  trainingData : TrainingData L α
  samples : Fin n → TrainingSample L α
  meanShape : Shape L α

/-- The state stored in Regressor::data (regressor.cpp lines 29-38). -/
structure RegressorData (L : ℕ) (α : Type) where
  shapeRelativePixelCoordinates : List (α × α)
  closestShapeLandmark : List ℤ
  meanResidual : ShapeResidual L α
  meanShape : Shape L α
  trees : List (Tree L α)
  learningRate : α

/-- Ground-truth shape lookup, t.trainingData->shapes[idx] (unchecked in
the source; junk shape out of range). -/
def shapeAt {L : ℕ} (shapes : List (Shape L α)) (i : ℕ) : Shape L α :=
  shapes.getD i 0

/-- Image lookup, t.trainingData->images[idx] (unchecked in the source;
junk image out of range). -/
def imageAt (images : List (Image α)) (i : ℕ) : Image α :=
  images.getD i (fun _ => 0)

/-- Regressor::sampleCoordinates (regressor.cpp lines 152-169): draws
numRandomPixelCoordinates points; each x coordinate is the bounding-box
minimum plus a uniform draw from [0, width], while each y coordinate is
the bounding-box MAXIMUM plus a uniform draw from [0, height] (line 165
of the source reads maxC.y() + dy, not minC.y() + dy). -/
def listMin : List α → Option α :=
  fun l => l.foldl (fun acc x =>
    match acc with
    | none => some x
    | some m => some (min m x)) none

def listMax : List α → Option α :=
  fun l => l.foldl (fun acc x =>
    match acc with
    | none => some x
    | some m => some (max m x)) none

/-- Rowwise minimum coefficient, meanShape.rowwise().minCoeff(). -/
def rowMinCoeff {L : ℕ} (s : Shape L α) (r : Fin 2) : α :=
  (listMin ((List.finRange L).map fun j => s r j)).getD 0

/-- Rowwise maximum coefficient, meanShape.rowwise().maxCoeff(). -/
def rowMaxCoeff {L : ℕ} (s : Shape L α) (r : Fin 2) : α :=
  (listMax ((List.finRange L).map fun j => s r j)).getD 0

def sampleCoordinates {L n : ℕ} (t : RegressorTraining L n α) : List (α × α) :=
  (t.trainingData.draws.take t.trainingData.params.numRandomPixelCoordinates).map
    fun d => (rowMinCoeff t.meanShape 0 + d.1, rowMaxCoeff t.meanShape 1 + d.2)

/-- Regressor::readPixelIntensities (regressor.cpp lines 172-184): apply
the linear part of the transform to each stored relative coordinate, add
the current estimate's position at the stored anchor landmark, and
sample the image there (readImage is the external image collaborator). -/
def mulVec2 (A : Matrix (Fin 2) (Fin 2) α) (p : α × α) : α × α :=
  (A 0 0 * p.1 + A 0 1 * p.2, A 1 0 * p.1 + A 1 1 * p.2)

def readPixelIntensities {L : ℕ} (rel : List (α × α)) (closest : List ℤ)
    (trans : SimilarityTransform α) (s : Shape L α) (img : Image α) :
    PixelIntensities α :=
  (rel.zip closest).map fun rc => img (add2 (mulVec2 trans.A rc.1) (colI s rc.2))

/-- The per-sample initialization inside Regressor::fit's first loop
(regressor.cpp lines 123-131): target residual = ground truth minus
estimate; intensities are read under the mean-shape-to-estimate
transform using this stage's frozen pixel coordinates. -/
def fitInitSample {L n : ℕ} (svdOf : Matrix (Fin 2) (Fin 2) α → SVD2 α)
    (t : RegressorTraining L n α) (i : Fin n) :
    ShapeResidual L α × PixelIntensities α :=
  let rc := shapeRelativePixelCoordinates t.meanShape (sampleCoordinates t)
  let s := t.samples i
  let residual := shapeAt t.trainingData.shapes s.idx - s.estimate
  let trans := estimateSimilarityTransform svdOf t.meanShape s.estimate
  let ints := readPixelIntensities rc.1 rc.2 trans s.estimate
    (imageAt t.trainingData.images s.idx)
  (residual, ints)

/-- The mean residual (regressor.cpp lines 122-132): the residual sum
divided by the sample count — the division is unguarded in the source,
so a zero sample count divides by zero. -/
def fitMeanResidual {L n : ℕ} (svdOf : Matrix (Fin 2) (Fin 2) α → SVD2 α)
    (t : RegressorTraining L n α) : ShapeResidual L α :=
  ((n : α))⁻¹ • ∑ i, (fitInitSample svdOf t i).1

/-- One iteration of the boosting loop (regressor.cpp lines 134-145):
at iteration k, subtract from every sample's working residual the mean
residual (k = 0) or learningRate times tree k-1's prediction on the
sample's cached intensities (k > 0), then fit tree k on the updated
samples and append it. -/
def boostStep {L n : ℕ} (lr : α) (mean : ShapeResidual L α)
    (fitTree : (Fin n → ShapeResidual L α × PixelIntensities α) → Tree L α)
    (k : ℕ)
    (st : (Fin n → ShapeResidual L α × PixelIntensities α) × List (Tree L α)) :
    (Fin n → ShapeResidual L α × PixelIntensities α) × List (Tree L α) :=
  let ss := fun i =>
    ((st.1 i).1 -
      (if k = 0 then mean
       else lr • (st.2.getD (k - 1) (fun _ => 0)) ((st.1 i).2)),
     (st.1 i).2)
  (ss, st.2 ++ [fitTree ss])

/-- The boosting loop state after k iterations: the working samples as
updated so far, and the trees fit so far (tree fitting itself lives in
tree.cpp, outside the analysed sources, and is the external parameter
fitTree). -/
def boostState {L n : ℕ} (svdOf : Matrix (Fin 2) (Fin 2) α → SVD2 α)
    (fitTree : (Fin n → ShapeResidual L α × PixelIntensities α) → Tree L α)
    (t : RegressorTraining L n α) : ℕ →
    (Fin n → ShapeResidual L α × PixelIntensities α) × List (Tree L α)
  | 0 => (fun i => fitInitSample svdOf t i, [])
  | k + 1 => boostStep t.trainingData.params.learningRate
      (fitMeanResidual svdOf t) fitTree k (boostState svdOf fitTree t k)

/-- Regressor::fit (regressor.cpp lines 103-150): performs no input
validation, overwrites the whole stored state, and returns false. -/
def Regressor.fit {L n : ℕ} (svdOf : Matrix (Fin 2) (Fin 2) α → SVD2 α)
    (fitTree : (Fin n → ShapeResidual L α × PixelIntensities α) → Tree L α)
    (t : RegressorTraining L n α) : RegressorData L α × Bool :=
  let rc := shapeRelativePixelCoordinates t.meanShape (sampleCoordinates t)
  ({ shapeRelativePixelCoordinates := rc.1
     closestShapeLandmark := rc.2
     meanResidual := fitMeanResidual svdOf t
     meanShape := t.meanShape
     trees := (boostState svdOf fitTree t t.trainingData.params.numTrees).2
     learningRate := t.trainingData.params.learningRate },
   false)

/-- The intensities extracted by Regressor::predict for a query shape:
read under the similarity transform estimated from the stored mean shape
to the query shape (regressor.cpp lines 190-192). -/
def predictIntensities {L : ℕ} (svdOf : Matrix (Fin 2) (Fin 2) α → SVD2 α)
    (d : RegressorData L α) (img : Image α) (shape : Shape L α) :
    PixelIntensities α :=
  readPixelIntensities d.shapeRelativePixelCoordinates d.closestShapeLandmark
    (estimateSimilarityTransform svdOf d.meanShape shape) shape img

/-- Regressor::predict (regressor.cpp lines 186-202): start from
meanResidual and add learningRate times each tree's prediction. -/
def Regressor.predict {L : ℕ} (svdOf : Matrix (Fin 2) (Fin 2) α → SVD2 α)
    (d : RegressorData L α) (img : Image α) (shape : Shape L α) :
    ShapeResidual L α :=
  let ints := predictIntensities svdOf d img shape
  d.trees.foldl (fun sr tr => sr + d.learningRate • tr ints) d.meanResidual

/- ### Claims C9, C3, C4 -/

/-- Claim C9: Regressor::fit returns false on every input — also after a
fully successful training run; the boolean never signals success. -/
theorem fit_returns_false {L n : ℕ}
    (svdOf : Matrix (Fin 2) (Fin 2) α → SVD2 α)
    (fitTree : (Fin n → ShapeResidual L α × PixelIntensities α) → Tree L α)
    (t : RegressorTraining L n α) :
    (Regressor.fit svdOf fitTree t).2 = false := rfl

theorem foldl_add_smul {L : ℕ} (lr : α) (ints : PixelIntensities α) :
    ∀ (ts : List (Tree L α)) (init : ShapeResidual L α),
      ts.foldl (fun sr tr => sr + lr • tr ints) init
        = init + lr • ((ts.map fun tr => tr ints).sum) := by
  intro ts
  induction ts with
  | nil =>
    intro init
    simp
  | cons tr ts ih =>
    intro init
    rw [List.foldl_cons, ih, List.map_cons, List.sum_cons, smul_add, add_assoc]

/-- Claim C3: Regressor::predict returns exactly
meanResidual + learningRate * (sum of all tree predictions) on the
intensities extracted under the transform estimated from the stored mean
shape to the query shape; the meanResidual term enters with weight 1. -/
theorem predict_is_meanResidual_plus_shrunk_sum {L : ℕ}
    (svdOf : Matrix (Fin 2) (Fin 2) α → SVD2 α)
    (d : RegressorData L α) (img : Image α) (shape : Shape L α) :
    Regressor.predict svdOf d img shape
      = d.meanResidual + d.learningRate •
          ((d.trees.map fun tr => tr (predictIntensities svdOf d img shape)).sum) := by
  unfold Regressor.predict
  exact foldl_add_smul d.learningRate (predictIntensities svdOf d img shape)
    d.trees d.meanResidual

theorem boostState_ints {L n : ℕ} (svdOf : Matrix (Fin 2) (Fin 2) α → SVD2 α)
    (fitTree : (Fin n → ShapeResidual L α × PixelIntensities α) → Tree L α)
    (t : RegressorTraining L n α) (k : ℕ) (i : Fin n) :
    ((boostState svdOf fitTree t k).1 i).2 = (fitInitSample svdOf t i).2 := by
  induction k with
  | zero => rfl
  | succ k ih =>
    show ((boostStep _ _ _ k (boostState svdOf fitTree t k)).1 i).2 = _
    unfold boostStep
    exact ih

theorem boostState_trees_length {L n : ℕ}
    (svdOf : Matrix (Fin 2) (Fin 2) α → SVD2 α)
    (fitTree : (Fin n → ShapeResidual L α × PixelIntensities α) → Tree L α)
    (t : RegressorTraining L n α) (k : ℕ) :
    (boostState svdOf fitTree t k).2.length = k := by
  induction k with
  | zero => rfl
  | succ k ih =>
    show (boostStep _ _ _ k (boostState svdOf fitTree t k)).2.length = k + 1
    unfold boostStep
    rw [List.length_append, ih]
    rfl

theorem boostState_trees_succ {L n : ℕ}
    (svdOf : Matrix (Fin 2) (Fin 2) α → SVD2 α)
    (fitTree : (Fin n → ShapeResidual L α × PixelIntensities α) → Tree L α)
    (t : RegressorTraining L n α) (k : ℕ) :
    ∃ tr, (boostState svdOf fitTree t (k + 1)).2
      = (boostState svdOf fitTree t k).2 ++ [tr] :=
  ⟨_, rfl⟩

theorem boostState_trees_stable {L n : ℕ}
    (svdOf : Matrix (Fin 2) (Fin 2) α → SVD2 α)
    (fitTree : (Fin n → ShapeResidual L α × PixelIntensities α) → Tree L α)
    (t : RegressorTraining L n α) (k j : ℕ) (hj : j < k) :
    (boostState svdOf fitTree t (k + 1)).2.getD j (fun _ => 0)
      = (boostState svdOf fitTree t k).2.getD j (fun _ => 0) := by
  obtain ⟨tr, htr⟩ := boostState_trees_succ svdOf fitTree t k
  have hlen : j < (boostState svdOf fitTree t k).2.length := by
    rw [boostState_trees_length]
    exact hj
  rw [htr, List.getD_eq_getElem?_getD, List.getElem?_append_left hlen,
    ← List.getD_eq_getElem?_getD]

/-- Claim C4: during Regressor::fit the working residual of every sample
just before tree k is fit equals the initial target residual minus
meanResidual minus learningRate times the sum of the predictions of the
k earlier trees on that sample's cached intensities (tree 0 subtracts
meanResidual; tree k > 0 subtracts learningRate times tree k-1's
prediction). -/
theorem boosting_residual_invariant {L n : ℕ}
    (svdOf : Matrix (Fin 2) (Fin 2) α → SVD2 α)
    (fitTree : (Fin n → ShapeResidual L α × PixelIntensities α) → Tree L α)
    (t : RegressorTraining L n α) (k : ℕ) (i : Fin n) :
    ((boostState svdOf fitTree t (k + 1)).1 i).1
      = (fitInitSample svdOf t i).1 - fitMeanResidual svdOf t
        - t.trainingData.params.learningRate •
            ∑ j in Finset.range k,
              ((boostState svdOf fitTree t (k + 1)).2.getD j (fun _ => 0))
                ((fitInitSample svdOf t i).2) := by
  induction k with
  | zero =>
    show ((boostStep _ _ _ 0 (boostState svdOf fitTree t 0)).1 i).1 = _
    unfold boostStep
    simp [boostState]
  | succ k ih =>
    have hstep :
        ((boostState svdOf fitTree t (k + 2)).1 i).1
          = ((boostState svdOf fitTree t (k + 1)).1 i).1
            - t.trainingData.params.learningRate •
                ((boostState svdOf fitTree t (k + 1)).2.getD k (fun _ => 0))
                  (((boostState svdOf fitTree t (k + 1)).1 i).2) := by
      show ((boostStep _ _ _ (k + 1) (boostState svdOf fitTree t (k + 1))).1 i).1 = _
      unfold boostStep
      simp
    have hrw : ∑ j in Finset.range (k + 1),
          ((boostState svdOf fitTree t (k + 2)).2.getD j (fun _ => 0))
            ((fitInitSample svdOf t i).2)
        = ∑ j in Finset.range (k + 1),
          ((boostState svdOf fitTree t (k + 1)).2.getD j (fun _ => 0))
            ((fitInitSample svdOf t i).2) := by
      apply Finset.sum_congr rfl
      intro j hj
      rw [boostState_trees_stable svdOf fitTree t (k + 1) j (Finset.mem_range.mp hj)]
    rw [hstep, boostState_ints, ih, hrw, Finset.sum_range_succ, smul_add,
      sub_add_eq_sub_sub]

/- ### Claim C2: fit on an empty sample set -/

/-- A tree-fitting collaborator for the zero-sample case. -/
def fitTreeZero : (Fin 0 → ShapeResidual 1 ℚ × PixelIntensities ℚ) → Tree 1 ℚ :=
  fun _ => fun _ => 0

/-- A concrete training input with an empty sample set. -/
def emptyTraining : RegressorTraining 1 0 ℚ :=
  { trainingData :=
      { params := { learningRate := 1/2, numTrees := 1, numRandomPixelCoordinates := 0 }
        shapes := []
        images := []
        draws := [] }
    samples := fun i => i.elim0
    meanShape := 0 }

/-- A concrete prior regressor state, before the fit call. -/
def priorState : RegressorData 1 ℚ :=
  { shapeRelativePixelCoordinates := []
    closestShapeLandmark := []
    meanResidual := 0
    meanShape := 0
    trees := []
    learningRate := 0 }

/-- Counterexample to claim C2 as stated: Regressor::fit called on an
empty sample set does not leave the regressor's state unchanged — it
overwrites the stored learning rate (here from 0 to 1/2), so there is no
rejection before the numeric work. -/
theorem fit_empty_mutates_state_cex :
    (Regressor.fit svdOracleZero fitTreeZero emptyTraining).1.learningRate = 1/2 ∧
    priorState.learningRate = 0 ∧
    (Regressor.fit svdOracleZero fitTreeZero emptyTraining).1.learningRate
      ≠ priorState.learningRate := by
  refine ⟨rfl, rfl, ?_⟩
  show (1 : ℚ)/2 ≠ 0
  norm_num

/-- Claim C2 amended: Regressor::fit performs no empty-sample
validation: called with zero samples it still overwrites the regressor's
state — learning rate, mean shape and the tree list (resized to
numTrees) — computes the mean residual by an unguarded division by the
zero sample count, and returns false as on every input. -/
theorem fit_empty_overwrites_state {L : ℕ}
    (svdOf : Matrix (Fin 2) (Fin 2) α → SVD2 α)
    (fitTree : (Fin 0 → ShapeResidual L α × PixelIntensities α) → Tree L α)
    (t : RegressorTraining L 0 α) :
    (Regressor.fit svdOf fitTree t).1.learningRate
      = t.trainingData.params.learningRate ∧
    (Regressor.fit svdOf fitTree t).1.meanShape = t.meanShape ∧
    (Regressor.fit svdOf fitTree t).1.trees.length
      = t.trainingData.params.numTrees ∧
    (Regressor.fit svdOf fitTree t).2 = false := by
  refine ⟨rfl, rfl, ?_, rfl⟩
  exact boostState_trees_length svdOf fitTree t t.trainingData.params.numTrees

/- ### Claim C1: sampleCoordinates and the bounding box -/

/-- A concrete mean shape whose bounding box is [0,1] x [0,1]. -/
def meanShapeBB : Shape 2 ℚ := !![0, 1; 0, 1]

/-- A concrete training input with one pixel coordinate to draw and a
legal uniform draw (1/2, 1/2): both components lie in [0, max - min] of
the bounding box. -/
def trainingBB : RegressorTraining 2 0 ℚ :=
  { trainingData :=
      { params := { learningRate := 1/2, numTrees := 0, numRandomPixelCoordinates := 1 }
        shapes := []
        images := []
        draws := [(1/2, 1/2)] }
    samples := fun i => i.elim0
    meanShape := meanShapeBB }

theorem finRange_two : List.finRange 2 = [0, 1] := by decide

theorem rowMinCoeff_meanShapeBB_x : rowMinCoeff meanShapeBB (0 : Fin 2) = 0 := by
  rw [rowMinCoeff, finRange_two]
  simp [listMin, meanShapeBB]

theorem rowMinCoeff_meanShapeBB : rowMinCoeff meanShapeBB (1 : Fin 2) = 0 := by
  rw [rowMinCoeff, finRange_two]
  simp [listMin, meanShapeBB]

theorem rowMaxCoeff_meanShapeBB : rowMaxCoeff meanShapeBB (1 : Fin 2) = 1 := by
  rw [rowMaxCoeff, finRange_two]
  simp [listMax, meanShapeBB]

/-- Claim C1 fails on the code: with mean shape bounding box
[0,1] x [0,1] and the legal uniform draw (1/2, 1/2), sampleCoordinates
produces the point (1/2, 3/2), whose y component exceeds the bounding
box maximum 1 — line 165 of regressor.cpp adds the draw to maxC.y()
instead of minC.y(). -/
theorem sampleCoordinates_escapes_bbox :
    (0 ≤ ((1 : ℚ)/2) ∧
      (1 : ℚ)/2 ≤ rowMaxCoeff meanShapeBB (1 : Fin 2)
        - rowMinCoeff meanShapeBB (1 : Fin 2)) ∧
    sampleCoordinates trainingBB = [((1 : ℚ)/2, 3/2)] ∧
    ¬ (((3 : ℚ)/2) ≤ rowMaxCoeff meanShapeBB (1 : Fin 2)) := by
  rw [rowMinCoeff_meanShapeBB, rowMaxCoeff_meanShapeBB]
  refine ⟨⟨by norm_num, by norm_num⟩, ?_, by norm_num⟩
  rw [sampleCoordinates]
  show List.map _
      (List.take trainingBB.trainingData.params.numRandomPixelCoordinates
        trainingBB.trainingData.draws) = _
  have hparams : trainingBB.trainingData.params.numRandomPixelCoordinates = 1 := rfl
  have hdraws : trainingBB.trainingData.draws = [((1 : ℚ)/2, 1/2)] := rfl
  have hms : trainingBB.meanShape = meanShapeBB := rfl
  rw [hparams, hdraws, hms, List.take_cons (by norm_num), List.take_zero,
    List.map_cons,
    List.map_nil, rowMinCoeff_meanShapeBB_x, rowMaxCoeff_meanShapeBB]
  norm_num
